import Mathlib

/-!
Verification development for the svn-scm command-execution and repository
orchestration core. The definitions below are shallow embeddings of the
TypeScript sources (`src/svn.ts`, the commands module, and the property
pick list); theorems settle the behavioural claims about them.
-/

namespace SvnScm

/-- Substring search over character lists: does `needle` occur
contiguously inside the list? -/
def hasSub : List Char → List Char → Bool
  | [], needle => needle.isEmpty
  | c :: t, needle => needle.isPrefixOf (c :: t) || hasSub t needle

/-- Substring containment on strings, modelling a JavaScript anchorless
literal `RegExp.test` / free-text search over the stderr text. -/
def strContains (hay needle : String) : Bool :=
  hasSub hay.data needle.data

/-- The closed error-code table of `svn.ts` (`svnErrorCodes`), in source
insertion order, which is the order a JavaScript `for..in` visits the
non-numeric keys of the object literal. -/
def svnErrorCodes : List (String × String) :=
  [("AuthorizationFailed", "E170001"),
   ("RepositoryIsLocked", "E155004"),
   ("NotASvnRepository", "E155007"),
   ("NotShareCommonAncestry", "E195012"),
   ("WorkingCopyIsTooOld", "E155036")]

/-- The credential-exhaustion phrase tested after the table scan in
`getSvnErrorCode`. -/
def credentialsPhrase : String :=
  "No more credentials or we tried too many times"

/-- `getSvnErrorCode` of `svn.ts`: scan the table in insertion order for a
stderr match of `svn: <code>`, then fall back to the credential-exhaustion
phrase (mapped to `AuthorizationFailed` = E170001), else `undefined`. -/
def getSvnErrorCode (stderr : String) : Option String :=
  match svnErrorCodes.find? (fun p => strContains stderr ("svn: " ++ p.2)) with
  | some p => some p.2
  | none =>
    if strContains stderr credentialsPhrase then
      some "E170001"
    else
      none

/-- Matcher for the per-line regex `^svn: E\d+: +` used to build
`stderrFormated`: the literal `svn: E`, one or more digits, a colon, one
or more spaces. Returns the rest of the line when the prefix matches. -/
def svnCodeDrop (cs : List Char) : Option (List Char) :=
  match cs with
  | 's' :: 'v' :: 'n' :: ':' :: ' ' :: 'E' :: rest =>
    let digits := rest.takeWhile Char.isDigit
    let rest2 := rest.dropWhile Char.isDigit
    if digits.isEmpty then none
    else
      match rest2 with
      | ':' :: rest3 =>
        let sps := rest3.takeWhile (fun c => c == ' ')
        let rest4 := rest3.dropWhile (fun c => c == ' ')
        if sps.isEmpty then none else some rest4
      | _ => none
  | _ => none

/-- One line of `stderr.replace(/^svn: E\d+: +/gm, "")`: strip the error
code prefix when the line starts with it. -/
def formatLine (line : String) : String :=
  match svnCodeDrop line.data with
  | some rest => String.mk rest
  | none => line

/-- `stderr.replace(/^svn: E\d+: +/gm, "")` of `svn.ts`: with the `m` flag
the anchor `^` matches at the start of the text and after each newline, so
the replacement strips the code prefix from every line. -/
def stderrFormat (s : String) : String :=
  String.intercalate "\n" ((s.splitOn "\n").map formatLine)

/-- JavaScript string truthiness for an optional string option
(`undefined` and the empty string are falsy). -/
def strTruthy : Option String → Bool
  | some s => !(s == "")
  | none => false

/-- The result of `jschardet.detect`, an external collaborator of
`Svn.exec`: a guessed encoding name and a confidence in [0,1]. -/
structure DetectGuess where
  encoding : String
  confidence : ℚ
deriving DecidableEq

/-- The external collaborators consulted by the encoding-resolution block
of `Svn.exec`: `iconv.encodingExists`, `is-utf8`, and `jschardet.detect`
(kept abstract as functions over the raw stdout bytes). -/
structure EncodingEnv where
  encodingExists : String → Bool
  isUtf8 : List Nat → Bool
  detect : List Nat → DetectGuess

/-- The observable outcome of encoding resolution: the chosen encoding
name, whether the invalid-`default.encoding` diagnostic log line was
emitted, and whether statistical detection (`jschardet.detect`) ran. -/
structure EncResolution where
  encoding : String
  loggedInvalid : Bool
  detectionRan : Bool
deriving DecidableEq

/-- Lines 99 and 145-172 of `Svn.exec`: start from the `encoding` option
hint (falling back to "utf8"); force "utf8" when `--xml` is among the
arguments; otherwise, with a truthy configured `default.encoding`, log a
diagnostic when it is unknown to iconv, or adopt it when the bytes are not
already valid UTF-8; with no configured default, run statistical
detection and adopt the guess only above 0.8 confidence for a supported
encoding. -/
def resolveEncoding (env : EncodingEnv) (args : List String)
    (hint : Option String) (defaultEncoding : Option String)
    (stdout : List Nat) : EncResolution :=
  let enc0 := if strTruthy hint then hint.getD "" else "utf8"
  if args.contains "--xml" then
    { encoding := "utf8", loggedInvalid := false, detectionRan := false }
  else if strTruthy defaultEncoding then
    let de := defaultEncoding.getD ""
    if !(env.encodingExists de) then
      { encoding := enc0, loggedInvalid := true, detectionRan := false }
    else if !(env.isUtf8 stdout) then
      { encoding := de, loggedInvalid := false, detectionRan := false }
    else
      { encoding := enc0, loggedInvalid := false, detectionRan := false }
  else
    let g := env.detect stdout
    if decide ((8 : ℚ) / 10 < g.confidence) && env.encodingExists g.encoding then
      { encoding := g.encoding, loggedInvalid := false, detectionRan := true }
    else
      { encoding := enc0, loggedInvalid := false, detectionRan := true }

/-- The structured `SvnError` constructed by `Svn.exec` on a non-zero
exit. -/
structure SvnError where
  stderr : String
  stderrFormated : String
  exitCode : Int
  svnErrorCode : Option String
  svnCommand : Option String
deriving DecidableEq

/-- The settled outcome of `Svn.exec`: a rejection with the raw spawn
error when the child process fails to launch, a rejection with a
structured `SvnError` on a truthy (non-zero) exit code, or a resolution
with the execution result. -/
inductive ExecOutcome
  | launchFailure (err : Nat)
  | failed (e : SvnError)
  | ok (exitCode : Int) (stdout : String) (stderr : String)
deriving DecidableEq

/-- Lines 124-194 of `Svn.exec` after the streams settle: a launch
failure rejects the awaited promise before the tail runs; otherwise a
non-zero exit code builds and rejects with an `SvnError` carrying the
classified code and the formatted stderr, and a zero exit resolves with
the execution result. -/
def execOutcome (launch : Option Nat) (exitCode : Int)
    (decodedStdout stderr : String) (args : List String) : ExecOutcome :=
  match launch with
  | some err => .launchFailure err
  | none =>
    if exitCode ≠ 0 then
      .failed
        { stderr := stderr
          stderrFormated := stderrFormat stderr
          exitCode := exitCode
          svnErrorCode := getSvnErrorCode stderr
          svnCommand := args.head? }
    else
      .ok exitCode decodedStdout stderr

/-- Predicate: the outcome of `Svn.exec` is a rejection (an execution
error of either kind) rather than an execution result. -/
def ExecOutcome.isError : ExecOutcome → Bool
  | .launchFailure _ => true
  | .failed _ => true
  | .ok _ _ _ => false

/-- A character the regex `[\\\/]+` of the log-line prefix treats as a
path separator. -/
def isSlash (c : Char) : Bool := c == '/' || c == '\\'

/-- `lastCwd.split(/[\\\/]+/)`: split on maximal runs of slashes and
backslashes, keeping empty pieces at the ends as JavaScript does. -/
def splitSlashRuns : List Char → List String
  | [] => [""]
  | c :: rest =>
    if isSlash c then
      "" :: splitSlashRuns (rest.dropWhile isSlash)
    else
      match splitSlashRuns rest with
      | [] => [String.mk [c]]
      | piece :: pieces => (String.mk [c] ++ piece) :: pieces
termination_by cs => cs.length
decreasing_by
  · simp only [List.length_cons]
    exact Nat.lt_succ_of_le (List.dropWhile_suffix _).length_le
  · simp

/-- The argument quoting of the invocation echo: an argument containing a
space, or the empty argument, is wrapped in single quotes
(`/ |^$/.test(arg)`). -/
def quoteArg (a : String) : String :=
  if a.contains ' ' || a == "" then "'" ++ a ++ "'" else a

/-- Lines 85-90 of `Svn.exec`: the diagnostic invocation-echo line
`[<last path segment of cwd>]$ svn <quoted args>`. -/
def mkLogLine (lastCwd : String) (args : List String) : String :=
  "[" ++ (splitSlashRuns lastCwd.data).getLastD "" ++ "]$ svn "
    ++ String.intercalate " " (args.map quoteArg) ++ "\n"

/-- Lines 85-97 of `Svn.exec` in source order: the invocation echo is
computed from `args` first (when logging is enabled), and only afterwards
are `--username`/`--password` pushed onto the argument vector when the
corresponding options are truthy. Returns the emitted echo line (if any)
and the final argument vector handed to `cp.spawn`. -/
def execLogAndArgs (lastCwd : String) (args : List String)
    (username password : Option String) (log : Bool) :
    Option String × List String :=
  let logLine := if log then some (mkLogLine lastCwd args) else none
  let args1 := if strTruthy username then args ++ ["--username", username.getD ""] else args
  let args2 := if strTruthy password then args1 ++ ["--password", password.getD ""] else args1
  (logLine, args2)

/-- The six event-listener registrations made by `Svn.exec` on the
spawned child process and its streams, in source order, tagged with
whether they were made with `ee.once` (auto-removed by Node when the
event fires) or `ee.on` (removed only via the pushed disposable). -/
inductive LEvent
  | procError
  | procExit
  | stdoutData
  | stdoutClose
  | stderrData
  | stderrClose
deriving DecidableEq

/-- The registrations pushed onto `disposables` by the three promise
executors of `Svn.exec` (lines 124-141): `(event, registered with once)`. -/
def execRegistrations : List (LEvent × Bool) :=
  [(.procError, true), (.procExit, true),
   (.stdoutData, false), (.stdoutClose, true),
   (.stderrData, false), (.stderrClose, true)]

/-- The events that fire on the child process and its streams: on a
launch failure `error` fires and `exit` never does; on a normal run
`exit` fires and `error` never does; the `data` events fire per chunk and
both `close` events fire in either case. -/
def firedEvents (launchFails : Bool) : List LEvent :=
  (if launchFails then [.procError] else [.procExit])
    ++ [.stdoutData, .stdoutClose, .stderrData, .stderrClose]

/-- The listener registrations of one `Svn.exec` call that remain after
the call settles. A `once` registration is auto-removed when its event
fires. `dispose(disposables)` on line 143 removes every remaining
registration, but it is reached only when the awaited `Promise.all`
resolves: on a launch failure the `error` listener rejects the first
promise, the `await` re-throws, and line 143 never runs. -/
def execRemainingListeners (launchFails : Bool) : List LEvent :=
  let fired := firedEvents launchFails
  let beforeDispose :=
    (execRegistrations.filter (fun r => !(r.2 && fired.contains r.1))).map (·.1)
  if launchFails then beforeDispose else []

/-- Repository handles are compared by JavaScript object identity in the
commands module; an identifier stands in for that identity. -/
abbrev Repo := Nat

/-- A resource URI handed to `runByRepository` (identity is all the
grouping logic inspects). -/
abbrev RUri := Nat

/-- The first-match-and-push step of the `reduce` in `runByRepository`:
append the resource to the first group whose repository matches
(`result.filter(p => p.repository === repository)[0]` followed by
`tuple.resources.push(resource)`). -/
def updateFirst (r : Repo) (x : RUri) : List (Repo × List RUri) → List (Repo × List RUri)
  | [] => []
  | g :: gs => if g.1 == r then (g.1, g.2 ++ [x]) :: gs else g :: updateFirst r x gs

/-- One step of the `reduce` in `runByRepository` (lines 1140-1160):
resolve the resource's repository via the model; drop the resource (with
a console warning) when none is found; otherwise push it into the
existing group for that repository or open a new group at the end. -/
def addToGroups (getRepo : RUri → Option Repo)
    (result : List (Repo × List RUri)) (resource : RUri) :
    List (Repo × List RUri) :=
  match getRepo resource with
  | none => result
  | some repository =>
    if result.any (fun p => p.1 == repository) then
      updateFirst repository resource result
    else
      result ++ [(repository, [resource])]

/-- The grouping phase of `runByRepository`: fold the input resources
into `(repository, resources)` groups, first-seen repository order. -/
def groupByRepository (getRepo : RUri → Option Repo)
    (resources : List RUri) : List (Repo × List RUri) :=
  resources.foldl (addToGroups getRepo) []

/-- The per-group operation outcomes of a dispatch: `fn` applied to each
group's repository and resources (each promise is created before any
aggregation, so every group's operation runs regardless of the others). -/
def groupOutcomes {ε α : Type} (getRepo : RUri → Option Repo)
    (resources : List RUri) (fn : Repo → List RUri → Except ε α) :
    List (Except ε α) :=
  (groupByRepository getRepo resources).map (fun g => fn g.1 g.2)

/-- `Promise.all` over settled outcomes: resolves with the list of values
in order when every promise resolves, and rejects with a rejection reason
as soon as any promise rejects. -/
def promiseAll {ε α : Type} : List (Except ε α) → Except ε (List α)
  | [] => .ok []
  | x :: xs =>
    match x with
    | .error e => .error e
    | .ok v =>
      match promiseAll xs with
      | .error e => .error e
      | .ok vs => .ok (v :: vs)

/-- Lines 1133-1166 of the commands module: `runByRepository` groups the
resources by owning repository, maps `fn` over the groups, and returns
`Promise.all` of the per-group promises. -/
def runByRepository {ε α : Type} (getRepo : RUri → Option Repo)
    (resources : List RUri) (fn : Repo → List RUri → Except ε α) :
    Except ε (List α) :=
  promiseAll (groupOutcomes getRepo resources fn)

/-- The repository keys of the produced groups in first-seen order: the
order-preserving deduplication of the resolved repositories. Spec-side
characterization used to state the grouping-order claim. -/
def firstSeenRepos (repos : List Repo) : List Repo :=
  repos.foldl (fun acc r => if acc.contains r then acc else acc ++ [r]) []

/-- The resource status tags of the commands module. Modelled from the
spec: the `Status` enum itself lives in a module outside the provided
sources; its variants are those the provided code and §4.6 of the spec
use (added, conflicted, deleted, ignored, missing, modified, replaced,
unversioned). -/
inductive Status
  | ADDED
  | CONFLICTED
  | DELETED
  | IGNORED
  | MISSING
  | MODIFIED
  | REPLACED
  | UNVERSIONED
deriving DecidableEq

/-- A source-control resource as the commands module reads it: its file
URI, its status tag, and the rename-source URI when the resource was
added via copy/rename. -/
structure Resource where
  resourceUri : String
  type : Status
  renameResourceUri : Option String
deriving DecidableEq

/-- An entry of `resourceGroup.resourceStates` in `commitWithMessage`:
either a plain `SourceControlResourceState` or a full `Resource`
(the code branches on `state instanceof Resource`). -/
inductive SCRState
  | plain (resourceUri : String)
  | res (r : Resource)
deriving DecidableEq

/-- The `resourceUri.fsPath` of a resource state. -/
def scrUri : SCRState → String
  | .plain u => u
  | .res r => r.resourceUri

/-- Lines 211-222 of `commitWithMessage`: map every selected state to its
path, then for each state that is a `Resource` with status ADDED and a
rename-source URI, also push the rename-source path. -/
def commitWithMessagePaths (states : List SCRState) : List String :=
  states.foldl
    (fun acc s =>
      match s with
      | .res r =>
        match r.renameResourceUri with
        | some ru => if r.type = Status.ADDED then acc ++ [ru] else acc
        | none => acc
      | .plain _ => acc)
    (states.map scrUri)

/-- Lines 345-350 of `commit`: map the selected resources to their URIs,
then for each resource with status ADDED and a rename-source URI, also
push the rename-source URI before dispatching via `runByRepository`. -/
def commitUris (selection : List Resource) : List String :=
  selection.foldl
    (fun acc r =>
      match r.renameResourceUri with
      | some ru => if r.type = Status.ADDED then acc ++ [ru] else acc
      | none => acc)
    (selection.map (·.resourceUri))

/-- A URI as the diff-pair resolution produces it: either the working
file itself, or a synthesized historical read-side. Modelled from the
spec for the external `toSvnUri` helper: `svnShow` is the URI produced by
`toSvnUri(uri, SvnUriAction.SHOW, \x7b ref \x7d)`, the synthesized
historical (svn SHOW) reference. -/
inductive VUri
  | file (fsPath : String)
  | svnShow (fsPath : String) (ref : String)
deriving DecidableEq

/-- Lines 599-617 (`getLeftResource`): an ADDED resource with a
rename-source URI compares against the rename source's historical
reference; CONFLICTED/MODIFIED/REPLACED compare against the resource's
own historical reference; every other status has no left side. -/
def getLeftResource (resource : Resource) (against : String) : Option VUri :=
  if resource.type = Status.ADDED ∧ resource.renameResourceUri.isSome then
    resource.renameResourceUri.map (fun ru => VUri.svnShow ru against)
  else
    match resource.type with
    | .CONFLICTED | .MODIFIED | .REPLACED =>
      some (.svnShow resource.resourceUri against)
    | _ => none

/-- Lines 619-637 (`getRightResource`): most statuses open the working
file itself; DELETED and MISSING open the synthesized historical
reference since the working file no longer exists. -/
def getRightResource (resource : Resource) (against : String) : Option VUri :=
  match resource.type with
  | .ADDED | .CONFLICTED | .IGNORED | .MODIFIED | .UNVERSIONED | .REPLACED =>
    some (.file resource.resourceUri)
  | .DELETED | .MISSING =>
    some (.svnShow resource.resourceUri against)

/-- `path.basename` for the normalized absolute posix fsPaths the title
logic receives: the last non-empty slash-separated segment. -/
def pathBasename (s : String) : String :=
  ((s.splitOn "/").filter (fun p => !(p == ""))).getLastD s

/-- `path.dirname` for normalized absolute posix fsPaths: everything
before the last separator (the root stays "/"). -/
def pathDirname (s : String) : String :=
  let parts := (s.splitOn "/").filter (fun p => !(p == ""))
  match parts.dropLast with
  | [] => "/"
  | ps => "/" ++ String.intercalate "/" ps

/-- `path.relative` for normalized absolute posix fsPaths: strip the
common leading segments, replace what is left of `src` with `..` steps
and append what is left of `dst`. -/
def pathRelative (src dst : String) : String :=
  let fromParts := (src.splitOn "/").filter (fun p => !(p == ""))
  let toParts := (dst.splitOn "/").filter (fun p => !(p == ""))
  let rec strip : List String → List String → List String × List String
    | a :: as, b :: bs => if a == b then strip as bs else (a :: as, b :: bs)
    | as, bs => (as, bs)
  let (fr, tr) := strip fromParts toParts
  String.intercalate "/" (fr.map (fun _ => "..") ++ tr)

/-- Lines 639-659 (`getTitle`): an ADDED resource with a rename-source
URI is titled `<old basename> -> <relative new name>`; every other
resource is titled by its basename; a truthy `against` tag is appended in
parentheses, and with no tag the non-rename case yields the empty
title. -/
def getTitle (resource : Resource) (against : String) : String :=
  if resource.type = Status.ADDED ∧ resource.renameResourceUri.isSome then
    let ru := resource.renameResourceUri.getD ""
    let basename := pathBasename ru
    let newname := pathRelative (pathDirname ru) resource.resourceUri
    if !(against == "") then
      basename ++ " -> " ++ newname ++ " (" ++ against ++ ")"
    else
      basename ++ " -> " ++ newname
  else
    let basename := pathBasename resource.resourceUri
    if !(against == "") then
      basename ++ " (" ++ against ++ ")"
    else
      ""

/-! ### Helper lemmas -/

/-- `Promise.all` over outcomes that all resolve yields the value list in
order. -/
theorem promiseAll_map_ok {ε α : Type} :
    ∀ (vs : List α), promiseAll (ε := ε) (vs.map Except.ok) = Except.ok vs := by
  intro vs
  induction vs with
  | nil => rfl
  | cons v vs ih => simp [promiseAll, ih]

/-- A resolved `Promise.all` means every outcome resolved, with the value
list collected in order. -/
theorem promiseAll_ok_iff {ε α : Type} :
    ∀ (l : List (Except ε α)) (vs : List α),
      promiseAll l = Except.ok vs ↔ l = vs.map Except.ok := by
  intro l
  induction l with
  | nil =>
    intro vs
    cases vs <;> simp [promiseAll]
  | cons x xs ih =>
    intro vs
    constructor
    · intro h
      cases x with
      | error e => simp [promiseAll] at h
      | ok v =>
        cases hxs : promiseAll xs with
        | error e => simp [promiseAll, hxs] at h
        | ok us =>
          simp [promiseAll, hxs] at h
          subst h
          simp [(ih us).mp hxs]
    · intro h
      cases vs with
      | nil => simp at h
      | cons w ws =>
        simp at h
        obtain ⟨hx, hxs⟩ := h
        subst hx
        rw [hxs, show Except.ok w :: (ws.map Except.ok) =
          ((w :: ws).map Except.ok) from rfl]
        exact promiseAll_map_ok (w :: ws)

/-- When some outcome is a rejection, `promiseAll` rejects with one of the
rejection reasons among the outcomes. -/
theorem promiseAll_error_of_mem {ε α : Type} :
    ∀ (l : List (Except ε α)), (∃ e, Except.error e ∈ l) →
      ∃ e, promiseAll l = Except.error e ∧ Except.error e ∈ l := by
  intro l
  induction l with
  | nil => rintro ⟨e, he⟩; simp at he
  | cons x xs ih =>
    rintro ⟨e, he⟩
    cases x with
    | error e' => exact ⟨e', by simp [promiseAll], by simp⟩
    | ok v =>
      have hxs : ∃ e, Except.error e ∈ xs := by
        rcases List.mem_cons.mp he with h | h
        · exact absurd h (by simp)
        · exact ⟨e, h⟩
      obtain ⟨e', he', hmem⟩ := ih hxs
      exact ⟨e', by simp [promiseAll, he'], by simp [hmem]⟩

/-- Substring containment is preserved when the needle is shortened on
the right: a hay containing `n ++ e` contains `n`. -/
theorem hasSub_of_append (hay : List Char) :
    ∀ (n e : List Char), hasSub hay (n ++ e) = true → hasSub hay n = true := by
  induction hay with
  | nil =>
    intro n e h
    simp [hasSub] at h ⊢
    exact h.1
  | cons c t ih =>
    intro n e h
    simp only [hasSub, Bool.or_eq_true] at h ⊢
    rcases h with h | h
    · exact Or.inl (List.isPrefixOf_iff_prefix.mpr
        ((List.prefix_append n e).trans (List.isPrefixOf_iff_prefix.mp h)))
    · exact Or.inr (ih n e h)

/-- `List.find?` returns the element at the first index whose predicate
holds when every earlier element fails the predicate. -/
theorem find?_at_index {α : Type} (p : α → Bool) :
    ∀ (l : List α) (i : Nat) (a : α), l[i]? = some a → p a = true →
      (∀ j b, j < i → l[j]? = some b → p b = false) →
      l.find? p = some a := by
  intro l
  induction l with
  | nil => intro i a h _ _; simp at h
  | cons x xs ih =>
    intro i a hget hpa hprev
    cases i with
    | zero =>
      simp at hget
      subst hget
      exact List.find?_cons_of_pos _ hpa
    | succ n =>
      have hx : p x = false := hprev 0 x (Nat.succ_pos n) (by simp)
      rw [List.find?_cons_of_neg _ (by simp [hx])]
      exact ih n a (by simpa using hget) hpa
        (fun j b hj hb => hprev (j + 1) b (by omega) (by simpa using hb))

/-- A stderr containing the authorization-failure token classifies as
E170001: the token heads the table, so it wins the scan. -/
theorem getSvnErrorCode_auth (stderr : String)
    (h : strContains stderr "svn: E170001:" = true) :
    getSvnErrorCode stderr = some "E170001" := by
  have hd : ("svn: E170001:").data = ("svn: " ++ "E170001").data ++ [':'] := by
    decide
  unfold strContains at h
  rw [hd] at h
  have h1 : strContains stderr ("svn: " ++ "E170001") = true :=
    hasSub_of_append stderr.data _ _ h
  unfold getSvnErrorCode
  have hfind : svnErrorCodes.find?
      (fun p => strContains stderr ("svn: " ++ p.2)) =
      some ("AuthorizationFailed", "E170001") := by
    rw [show svnErrorCodes = ("AuthorizationFailed", "E170001") ::
      [("RepositoryIsLocked", "E155004"), ("NotASvnRepository", "E155007"),
       ("NotShareCommonAncestry", "E195012"),
       ("WorkingCopyIsTooOld", "E155036")] from rfl]
    exact List.find?_cons_of_pos _ (by simpa using h1)
  rw [hfind]

/-! ### C10: the invocation echo never carries credentials -/

/-- Claim C10: with logging enabled, the diagnostic invocation-echo line
of `Svn.exec` is identical whether or not username/password options are
supplied, all else equal — the credentials are appended to the argument
vector only after the echo line is computed, so they never appear in the
diagnostic log. -/
theorem exec_echo_credential_free (lastCwd : String) (args : List String)
    (u p : Option String) :
    (execLogAndArgs lastCwd args u p true).1 =
      (execLogAndArgs lastCwd args none none true).1 := rfl

/-! ### C6: structured output forces UTF-8 -/

/-- Claim C6: whenever the argument vector contains the structured-output
flag `--xml`, the resolved stdout encoding is "utf8", regardless of the
configured default encoding, the encoding hint, or the stdout bytes. -/
theorem resolveEncoding_xml_utf8 (env : EncodingEnv) (args : List String)
    (hint defaultEncoding : Option String) (stdout : List Nat)
    (h : args.contains "--xml" = true) :
    (resolveEncoding env args hint defaultEncoding stdout).encoding = "utf8" := by
  have h' : "--xml" ∈ args := by simpa using h
  unfold resolveEncoding
  simp [h']

/-- Witness for C6 at a concrete invocation. -/
theorem resolveEncoding_xml_utf8_witness :
    (["info", "--xml"].contains "--xml" = true) ∧
    (resolveEncoding
        ⟨fun _ => true, fun _ => false, fun _ => ⟨"big5", 1⟩⟩
        ["info", "--xml"] (some "cp1252") (some "gbk") [1, 2]).encoding = "utf8" :=
  ⟨by decide,
   resolveEncoding_xml_utf8 ⟨fun _ => true, fun _ => false, fun _ => ⟨"big5", 1⟩⟩
     ["info", "--xml"] (some "cp1252") (some "gbk") [1, 2] (by decide)⟩

/-! ### C2: listener cleanup on the exit paths of Svn.exec -/

/-- Claim C2 (evaluation of the code at the failing input): on the
launch-failure path the `error` event rejects the awaited `Promise.all`
before `dispose(disposables)` runs, so the unfired `exit` once-listener
and both stream `data` listeners remain registered after the call
settles, contradicting the claimed guaranteed release; on the normal exit
path every registration is released. -/
theorem execListeners_launch_failure :
    execRemainingListeners true =
      [LEvent.procExit, LEvent.stdoutData, LEvent.stderrData] ∧
    execRemainingListeners false = [] := ⟨rfl, rfl⟩

/-! ### C1: batch dispatch across repositories is all-or-nothing -/

/-- Counterexample to claim C1: two resources in two distinct
repositories, the first group's operation rejects and the second's
resolves with the value 7; the dispatched batch returns the bare
rejection, so the second group's result is not returned to the caller. -/
theorem runByRepository_counterexample :
    runByRepository (fun p => some p) [0, 1]
      (fun r _ => if r == 0 then Except.error 0 else Except.ok 7) =
      Except.error 0 ∧
    groupOutcomes (fun p => some p) [0, 1]
      (fun r _ => if r == 0 then Except.error 0 else Except.ok 7) =
      [Except.error 0, Except.ok 7] := ⟨rfl, rfl⟩

/-- Claim C1 as amended: every group's operation is invoked on its own
repository and paths, and when all groups resolve the results are
returned preserving group order; but a rejection in any group makes the
whole batch reject with one of the group rejections, so sibling groups'
results are not returned to the caller. -/
theorem runByRepository_allOrNothing {ε α : Type}
    (getRepo : RUri → Option Repo) (resources : List RUri)
    (fn : Repo → List RUri → Except ε α) :
    (∀ vs, runByRepository getRepo resources fn = Except.ok vs ↔
      groupOutcomes getRepo resources fn = vs.map Except.ok) ∧
    ((∃ e, Except.error e ∈ groupOutcomes getRepo resources fn) →
      ∃ e, runByRepository getRepo resources fn = Except.error e ∧
        Except.error e ∈ groupOutcomes getRepo resources fn) := by
  constructor
  · intro vs
    exact promiseAll_ok_iff (groupOutcomes getRepo resources fn) vs
  · intro h
    exact promiseAll_error_of_mem (groupOutcomes getRepo resources fn) h

/-- Witness for the amended C1 at a concrete failing batch. -/
theorem runByRepository_allOrNothing_witness :
    ∃ e, runByRepository (fun p => some (p / 2)) [4, 9]
        (fun r _ => if r == 2 then (Except.ok 5 : Except Nat Nat) else Except.error 3) =
        Except.error e ∧
      Except.error e ∈ groupOutcomes (fun p => some (p / 2)) [4, 9]
        (fun r _ => if r == 2 then (Except.ok 5 : Except Nat Nat) else Except.error 3) :=
  (runByRepository_allOrNothing (fun p => some (p / 2)) [4, 9]
      (fun r _ => if r == 2 then (Except.ok 5 : Except Nat Nat) else Except.error 3)).2
    ⟨3, by show Except.error 3 ∈ [Except.ok 5, Except.error 3]; simp⟩

/-! ### C3: invalid configured default encoding does not fall through -/

/-- A concrete encoding environment: only "koi8-r" is a supported
encoding, nothing is valid UTF-8, and detection always guesses "koi8-r"
with confidence 0.99. -/
def encEnvKoi : EncodingEnv :=
  ⟨fun s => s == "koi8-r", fun _ => false, fun _ => ⟨"koi8-r", 99 / 100⟩⟩

/-- Counterexample to claim C3: with the unknown configured default
"foobar", the diagnostic is logged but statistical detection never runs
and the result stays "utf8", even though detection would have produced
the supported guess "koi8-r" above the 0.8 confidence bar. -/
theorem resolveEncoding_invalid_default_counterexample :
    resolveEncoding encEnvKoi ["log"] none (some "foobar") [193] =
      { encoding := "utf8", loggedInvalid := true, detectionRan := false } ∧
    encEnvKoi.detect [193] = ⟨"koi8-r", 99 / 100⟩ ∧
    encEnvKoi.encodingExists "koi8-r" = true ∧
    (8 : ℚ) / 10 < 99 / 100 ∧
    encEnvKoi.encodingExists "foobar" = false := by
  refine ⟨rfl, rfl, by decide, by norm_num, by decide⟩

/-- Claim C3 as amended: when a configured default encoding is set but
unknown, the diagnostic log line is emitted and the encoding keeps its
prior value (the encoding hint, else "utf8"); statistical detection is
not consulted — it runs only when no default encoding is configured. -/
theorem resolveEncoding_invalid_default (env : EncodingEnv) (args : List String)
    (hint defaultEncoding : Option String) (stdout : List Nat)
    (hx : args.contains "--xml" = false)
    (ht : strTruthy defaultEncoding = true)
    (he : env.encodingExists (defaultEncoding.getD "") = false) :
    resolveEncoding env args hint defaultEncoding stdout =
      { encoding := if strTruthy hint then hint.getD "" else "utf8",
        loggedInvalid := true, detectionRan := false } := by
  have hx' : "--xml" ∉ args := by simpa using hx
  unfold resolveEncoding
  simp [hx', ht, he]

/-- Witness for the amended C3 at a concrete configuration. -/
theorem resolveEncoding_invalid_default_witness :
    resolveEncoding encEnvKoi ["diff"] (some "cp860") (some "foobar") [193] =
      { encoding := "cp860", loggedInvalid := true, detectionRan := false } :=
  resolveEncoding_invalid_default encEnvKoi ["diff"] (some "cp860")
    (some "foobar") [193] (by decide) (by decide) (by decide)

/-! ### C4: error construction of Svn.exec -/

/-- Claim C4: `Svn.exec` rejects exactly when the process fails to launch
or exits non-zero; a non-zero exit with stderr containing
`svn: E170001:` yields an error classified E170001 (AuthorizationFailed)
whose display stderr has every leading `svn: E<digits>: ` line prefix
stripped; a zero exit resolves with a normal execution result. -/
theorem execOutcome_spec (launch : Option Nat) (exitCode : Int)
    (stdout stderr : String) (args : List String) :
    ((execOutcome launch exitCode stdout stderr args).isError = true ↔
      launch.isSome = true ∨ exitCode ≠ 0) ∧
    (launch = none → exitCode ≠ 0 →
      strContains stderr "svn: E170001:" = true →
      execOutcome launch exitCode stdout stderr args =
        ExecOutcome.failed
          { stderr := stderr, stderrFormated := stderrFormat stderr,
            exitCode := exitCode, svnErrorCode := some "E170001",
            svnCommand := args.head? }) ∧
    (launch = none → exitCode = 0 →
      execOutcome launch exitCode stdout stderr args =
        ExecOutcome.ok 0 stdout stderr) := by
  refine ⟨?_, ?_, ?_⟩
  · cases launch with
    | some err => simp [execOutcome, ExecOutcome.isError]
    | none =>
      by_cases h : exitCode = 0 <;>
        simp [execOutcome, ExecOutcome.isError, h]
  · intro hl hc hs
    subst hl
    simp only [execOutcome, if_pos hc]
    rw [getSvnErrorCode_auth stderr hs]
  · intro hl hc
    subst hl hc
    simp [execOutcome]

/-- Witness for C4 at a concrete non-zero exit with an authorization
failure on stderr. -/
theorem execOutcome_spec_witness :
    execOutcome none 1 "" "svn: E170001: Authorization failed" ["commit"] =
      ExecOutcome.failed
        { stderr := "svn: E170001: Authorization failed",
          stderrFormated := stderrFormat "svn: E170001: Authorization failed",
          exitCode := 1, svnErrorCode := some "E170001",
          svnCommand := (["commit"] : List String).head? } :=
  (execOutcome_spec none 1 "" "svn: E170001: Authorization failed"
      ["commit"]).2.1 rfl (by decide) (by decide)

/-! ### C5: the error classifier contract -/

/-- Claim C5: the classifier returns the code of the first table entry in
insertion order whose `svn: <code>` token occurs in stderr; when no table
token occurs, a stderr containing the credential-exhaustion phrase
returns E170001 (AuthorizationFailed, checked only after the table scan);
and a stderr matching nothing returns none. -/
theorem getSvnErrorCode_contract :
    (∀ (stderr : String) (i : Nat) (pr : String × String),
       svnErrorCodes[i]? = some pr →
       strContains stderr ("svn: " ++ pr.2) = true →
       (∀ (j : Nat) (q : String × String), j < i → svnErrorCodes[j]? = some q →
         strContains stderr ("svn: " ++ q.2) = false) →
       getSvnErrorCode stderr = some pr.2) ∧
    (∀ stderr : String,
       (∀ pr ∈ svnErrorCodes, strContains stderr ("svn: " ++ pr.2) = false) →
       strContains stderr credentialsPhrase = true →
       getSvnErrorCode stderr = some "E170001") ∧
    (∀ stderr : String,
       (∀ pr ∈ svnErrorCodes, strContains stderr ("svn: " ++ pr.2) = false) →
       strContains stderr credentialsPhrase = false →
       getSvnErrorCode stderr = none) := by
  refine ⟨?_, ?_, ?_⟩
  · intro stderr i pr hget hm hprev
    unfold getSvnErrorCode
    rw [find?_at_index _ svnErrorCodes i pr hget hm hprev]
  · intro stderr hnone hph
    unfold getSvnErrorCode
    rw [List.find?_eq_none.mpr (fun x hx => by simp [hnone x hx])]
    simp [hph]
  · intro stderr hnone hph
    unfold getSvnErrorCode
    rw [List.find?_eq_none.mpr (fun x hx => by simp [hnone x hx])]
    simp [hph]

/-- Witness for C5: a table hit at the head entry, a phrase-only stderr,
and an unmatched stderr. -/
theorem getSvnErrorCode_contract_witness :
    getSvnErrorCode "svn: E170001: auth failed" = some "E170001" ∧
    getSvnErrorCode "No more credentials or we tried too many times" =
      some "E170001" ∧
    getSvnErrorCode "hello world" = none :=
  ⟨getSvnErrorCode_contract.1 "svn: E170001: auth failed" 0
      ("AuthorizationFailed", "E170001") (by decide) (by decide)
      (fun j q hj _ => absurd hj (Nat.not_lt_zero j)),
   getSvnErrorCode_contract.2.1 "No more credentials or we tried too many times"
      (by decide) (by decide),
   getSvnErrorCode_contract.2.2 "hello world" (by decide) (by decide)⟩

/-- Substring containment survives prepending to the hay. -/
theorem hasSub_append_right : ∀ (a b n : List Char),
    hasSub b n = true → hasSub (a ++ b) n = true := by
  intro a
  induction a with
  | nil => intro b n h; exact h
  | cons c t ih =>
    intro b n h
    simp only [List.cons_append, hasSub, Bool.or_eq_true]
    exact Or.inr (ih b n h)

/-- String-level version of `hasSub_append_right`. -/
theorem strContains_append_right (a b n : String)
    (h : strContains b n = true) : strContains (a ++ b) n = true := by
  unfold strContains at h ⊢
  rw [String.data_append]
  exact hasSub_append_right a.data b.data n.data h

/-- Elements of the accumulator survive a fold whose step only extends
its accumulator. -/
theorem mem_foldl_of_mem_init {β : Type} (step : List String → β → List String)
    (hmono : ∀ acc b x, x ∈ acc → x ∈ step acc b) :
    ∀ (l : List β) (acc : List String) (x : String),
      x ∈ acc → x ∈ l.foldl step acc := by
  intro l
  induction l with
  | nil => intro acc x hx; simpa using hx
  | cons b bs ih => intro acc x hx; exact ih _ x (hmono acc b x hx)

/-- A fold whose step only extends its accumulator picks up any value
some listed element always contributes. -/
theorem mem_foldl_of_step {β : Type} (step : List String → β → List String)
    (hmono : ∀ acc b x, x ∈ acc → x ∈ step acc b)
    (y : String) (s : β) (hy : ∀ acc, y ∈ step acc s) :
    ∀ (l : List β) (acc : List String), s ∈ l → y ∈ l.foldl step acc := by
  intro l
  induction l with
  | nil => intro acc h; simp at h
  | cons b bs ih =>
    intro acc hmem
    rcases List.mem_cons.mp hmem with h | h
    · subst h
      exact mem_foldl_of_mem_init step hmono bs _ y (hy acc)
    · exact ih _ h

/-! ### C8: commit dispatches both endpoints of a rename -/

/-- Claim C8: in both commit workflows, each selected resource whose
status is ADDED with a rename-source URI contributes both its new path
and its rename-source path to the dispatched path collection. -/
theorem commit_includes_rename_source :
    (∀ (states : List SCRState) (r : Resource) (ru : String),
       SCRState.res r ∈ states → r.type = Status.ADDED →
       r.renameResourceUri = some ru →
       r.resourceUri ∈ commitWithMessagePaths states ∧
       ru ∈ commitWithMessagePaths states) ∧
    (∀ (selection : List Resource) (r : Resource) (ru : String),
       r ∈ selection → r.type = Status.ADDED →
       r.renameResourceUri = some ru →
       r.resourceUri ∈ commitUris selection ∧ ru ∈ commitUris selection) := by
  constructor
  · intro states r ru hmem hty hren
    have hmono : ∀ (acc : List String) (s : SCRState) (x : String), x ∈ acc →
        x ∈ (fun acc s =>
          match s with
          | SCRState.res r =>
            (match r.renameResourceUri with
             | some ru => if r.type = Status.ADDED then acc ++ [ru] else acc
             | none => acc)
          | SCRState.plain _ => acc) acc s := by
      intro acc s x hx
      cases s with
      | plain u => exact hx
      | res r' =>
        cases hr : r'.renameResourceUri with
        | none => simpa [hr] using hx
        | some ru' =>
          by_cases ht : r'.type = Status.ADDED
          · simp only [hr, ht, if_pos]
            exact List.mem_append_left _ hx
          · simpa [hr, ht] using hx
    constructor
    · exact mem_foldl_of_mem_init _ hmono states _ _
        (List.mem_map.mpr ⟨SCRState.res r, hmem, rfl⟩)
    · exact mem_foldl_of_step _ hmono ru (SCRState.res r)
        (fun acc => by simp [hren, hty]) states _ hmem
  · intro selection r ru hmem hty hren
    have hmono : ∀ (acc : List String) (s : Resource) (x : String), x ∈ acc →
        x ∈ (fun acc r =>
          match r.renameResourceUri with
          | some ru => if r.type = Status.ADDED then acc ++ [ru] else acc
          | none => acc) acc s := by
      intro acc s x hx
      cases hr : s.renameResourceUri with
      | none => simpa [hr] using hx
      | some ru' =>
        by_cases ht : s.type = Status.ADDED
        · simp only [hr, ht, if_pos]
          exact List.mem_append_left _ hx
        · simpa [hr, ht] using hx
    constructor
    · exact mem_foldl_of_mem_init _ hmono selection _ _
        (List.mem_map.mpr ⟨r, hmem, rfl⟩)
    · exact mem_foldl_of_step _ hmono ru r
        (fun acc => by simp [hren, hty]) selection _ hmem

/-- Witness for C8: one renamed-added resource commits both its new path
and its rename-source path through both workflows. -/
theorem commit_includes_rename_source_witness :
    ("/w/new.txt" ∈ commitWithMessagePaths
        [SCRState.res ⟨"/w/new.txt", Status.ADDED, some "/w/old.txt"⟩] ∧
     "/w/old.txt" ∈ commitWithMessagePaths
        [SCRState.res ⟨"/w/new.txt", Status.ADDED, some "/w/old.txt"⟩]) ∧
    ("/w/new.txt" ∈ commitUris
        [⟨"/w/new.txt", Status.ADDED, some "/w/old.txt"⟩] ∧
     "/w/old.txt" ∈ commitUris
        [⟨"/w/new.txt", Status.ADDED, some "/w/old.txt"⟩]) :=
  ⟨commit_includes_rename_source.1
      [SCRState.res ⟨"/w/new.txt", Status.ADDED, some "/w/old.txt"⟩]
      ⟨"/w/new.txt", Status.ADDED, some "/w/old.txt"⟩ "/w/old.txt"
      (by simp) rfl rfl,
   commit_includes_rename_source.2
      [⟨"/w/new.txt", Status.ADDED, some "/w/old.txt"⟩]
      ⟨"/w/new.txt", Status.ADDED, some "/w/old.txt"⟩ "/w/old.txt"
      (by simp) rfl rfl⟩

/-! ### C9: the diff pair of a deleted resource against BASE -/

/-- Counterexample to claim C9: for a deleted resource compared against
BASE, `getLeftResource` yields no left endpoint at all (DELETED is in
neither the rename branch nor the CONFLICTED/MODIFIED/REPLACED switch),
rather than the claimed synthesized historical reference; the
synthesized reference appears only as the right endpoint. -/
theorem deleted_base_counterexample :
    getLeftResource ⟨"/a/b.txt", Status.DELETED, none⟩ "BASE" = none ∧
    getRightResource ⟨"/a/b.txt", Status.DELETED, none⟩ "BASE" =
      some (VUri.svnShow "/a/b.txt" "BASE") := by
  refine ⟨by decide, rfl⟩

/-- Claim C9 as amended: for a deleted resource against BASE the left
endpoint is absent (so the viewer opens the synthesized reference alone
instead of a diff), the right endpoint is the synthesized historical
reference of the resource path, and the title includes "(BASE)". -/
theorem deleted_base_diff_pair (r : Resource)
    (h : r.type = Status.DELETED) :
    getLeftResource r "BASE" = none ∧
    getRightResource r "BASE" = some (VUri.svnShow r.resourceUri "BASE") ∧
    strContains (getTitle r "BASE") "(BASE)" = true := by
  obtain ⟨uri, ty, ren⟩ := r
  simp only at h
  subst h
  refine ⟨by simp [getLeftResource], rfl, ?_⟩
  have ht : getTitle ⟨uri, Status.DELETED, ren⟩ "BASE" =
      pathBasename uri ++ " (BASE)" := by
    simp only [getTitle]
    rw [if_neg (by simp), if_pos (by decide)]
    rw [String.append_assoc, String.append_assoc]
    rfl
  rw [ht]
  exact strContains_append_right _ _ _ (by decide)

/-- Witness for the amended C9 at a concrete deleted resource. -/
theorem deleted_base_diff_pair_witness :
    getLeftResource ⟨"/repo/gone.c", Status.DELETED, none⟩ "BASE" = none ∧
    getRightResource ⟨"/repo/gone.c", Status.DELETED, none⟩ "BASE" =
      some (VUri.svnShow "/repo/gone.c" "BASE") ∧
    strContains (getTitle ⟨"/repo/gone.c", Status.DELETED, none⟩ "BASE")
      "(BASE)" = true :=
  deleted_base_diff_pair ⟨"/repo/gone.c", Status.DELETED, none⟩ rfl

/-! ### C7: grouping by repository is a partition -/

/-- Group lookup by repository key: the resource list of the first group
whose repository matches, `[]` when none does. -/
def lookupGroup (groups : List (Repo × List RUri)) (q : Repo) : List RUri :=
  match groups.find? (fun p => p.1 == q) with
  | some p => p.2
  | none => []

/-- `find?` skips a block in which nothing satisfies the predicate. -/
theorem find?_append_of_none {α : Type} (p : α → Bool) :
    ∀ (l₁ l₂ : List α), l₁.find? p = none →
      (l₁ ++ l₂).find? p = l₂.find? p := by
  intro l₁
  induction l₁ with
  | nil => intro l₂ _; rfl
  | cons a t ih =>
    intro l₂ h
    cases hpa : p a with
    | true =>
      rw [List.find?_cons_of_pos _ hpa] at h
      exact absurd h (by simp)
    | false =>
      rw [List.find?_cons_of_neg _ (by simp [hpa])] at h
      rw [List.cons_append, List.find?_cons_of_neg _ (by simp [hpa])]
      exact ih l₂ h

/-- `find?` is unaffected by a block appended after a hit. -/
theorem find?_append_of_some {α : Type} (p : α → Bool) :
    ∀ (l₁ l₂ : List α) (a : α), l₁.find? p = some a →
      (l₁ ++ l₂).find? p = some a := by
  intro l₁
  induction l₁ with
  | nil => intro l₂ a h; simp at h
  | cons b t ih =>
    intro l₂ a h
    cases hpb : p b with
    | true =>
      rw [List.find?_cons_of_pos _ hpb] at h
      rw [List.cons_append, List.find?_cons_of_pos _ hpb]
      exact h
    | false =>
      rw [List.find?_cons_of_neg _ (by simp [hpb])] at h
      rw [List.cons_append, List.find?_cons_of_neg _ (by simp [hpb])]
      exact ih l₂ a h

/-- The head-step equation of group lookup. -/
theorem lookupGroup_cons (aKey : Repo) (aGrp : List RUri)
    (gs : List (Repo × List RUri)) (q : Repo) :
    lookupGroup ((aKey, aGrp) :: gs) q =
      if (aKey == q) = true then aGrp else lookupGroup gs q := by
  cases h : (aKey == q) with
  | true => simp [lookupGroup, List.find?_cons, h]
  | false => simp [lookupGroup, List.find?_cons, h]

/-- `updateFirst` appends the resource to the looked-up group of its
repository and leaves every other lookup unchanged. -/
theorem lookupGroup_updateFirst (r : Repo) (x : RUri) :
    ∀ (l : List (Repo × List RUri)) (q : Repo),
      l.any (fun p => p.1 == r) = true →
      lookupGroup (updateFirst r x l) q =
        lookupGroup l q ++ (if (r == q) = true then [x] else []) := by
  intro l
  induction l with
  | nil => intro q h; simp at h
  | cons g gs ih =>
    intro q hany
    obtain ⟨a, b⟩ := g
    by_cases hgr : a = r
    · subst hgr
      have hstep : updateFirst a x ((a, b) :: gs) = (a, b ++ [x]) :: gs := by
        simp [updateFirst]
      rw [hstep, lookupGroup_cons, lookupGroup_cons]
      by_cases hq : a = q
      · have hb : (a == q) = true := by simpa using hq
        rw [if_pos hb, if_pos hb, if_pos hb]
      · have hbn : ¬(a == q) = true := by simp [hq]
        rw [if_neg hbn, if_neg hbn, if_neg hbn]
        simp
    · have habeq : ((a, b).1 == r) = false := by simpa using hgr
      have hstep : updateFirst r x ((a, b) :: gs) =
          (a, b) :: updateFirst r x gs := by
        simp [updateFirst, habeq]
      rw [hstep, lookupGroup_cons, lookupGroup_cons]
      have hany' : gs.any (fun p => p.1 == r) = true := by
        simp only [List.any_cons, Bool.or_eq_true] at hany
        rcases hany with h | h
        · exact absurd (by simpa using h) hgr
        · exact h
      by_cases hq : a = q
      · have hb : (a == q) = true := by simpa using hq
        have hrq : ¬(r == q) = true := by
          simp only [beq_iff_eq]
          intro e
          exact hgr (by rw [hq, e])
        rw [if_pos hb, if_pos hb, if_neg hrq]
        simp
      · have hbn : ¬(a == q) = true := by simp [hq]
        rw [if_neg hbn, if_neg hbn]
        exact ih q hany'

/-- One `reduce` step appends the resource to exactly the lookup of its
resolved repository. -/
theorem lookupGroup_addToGroups (getRepo : RUri → Option Repo)
    (acc : List (Repo × List RUri)) (x : RUri) (q : Repo) :
    lookupGroup (addToGroups getRepo acc x) q =
      lookupGroup acc q ++
        (if (getRepo x == some q) = true then [x] else []) := by
  cases hx : getRepo x with
  | none => simp [addToGroups, hx]
  | some r =>
    simp only [addToGroups, hx]
    by_cases hany : acc.any (fun p => p.1 == r) = true
    · rw [if_pos hany, lookupGroup_updateFirst r x acc q hany]
      congr 1
    · rw [if_neg hany]
      rw [Bool.not_eq_true] at hany
      have hnone : acc.find? (fun p => p.1 == r) = none :=
        List.find?_eq_none.mpr (List.any_eq_false.mp hany)
      by_cases hq : r = q
      · subst hq
        have h2 : (some r == some r) = true := by simp
        have hfind : ((acc ++ [(r, [x])]).find? (fun p => p.1 == r)) =
            some (r, [x]) := by
          rw [find?_append_of_none _ _ _ hnone, List.find?_cons]
          simp
        have l1 : lookupGroup (acc ++ [(r, [x])]) r = [x] := by
          simp only [lookupGroup, hfind]
        have l2 : lookupGroup acc r = [] := by
          simp only [lookupGroup, hnone]
        rw [l1, l2, if_pos h2]
        simp
      · have h2 : ¬(some r == some q) = true := by simp [hq]
        have hhead : (((r, [x]) : Repo × List RUri).1 == q) = false := by
          simpa using hq
        cases hfind : acc.find? (fun p => p.1 == q) with
        | some pr =>
          have hap : ((acc ++ [(r, [x])]).find? (fun p => p.1 == q)) =
              some pr := find?_append_of_some _ _ _ pr hfind
          have l1 : lookupGroup (acc ++ [(r, [x])]) q = pr.2 := by
            simp only [lookupGroup, hap]
          have l2 : lookupGroup acc q = pr.2 := by
            simp only [lookupGroup, hfind]
          rw [l1, l2, if_neg h2]
          simp
        | none =>
          have hap : ((acc ++ [(r, [x])]).find? (fun p => p.1 == q)) =
              none := by
            rw [find?_append_of_none _ _ _ hfind, List.find?_cons]
            simp [hhead]
          have l1 : lookupGroup (acc ++ [(r, [x])]) q = [] := by
            simp only [lookupGroup, hap]
          have l2 : lookupGroup acc q = [] := by
            simp only [lookupGroup, hfind]
          rw [l1, l2, if_neg h2]
          simp

/-- The fold of the grouping phase: the lookup of any repository over the
final groups extends the accumulator's lookup with exactly the processed
resources resolving to that repository, in input order. -/
theorem lookupGroup_foldl (getRepo : RUri → Option Repo) :
    ∀ (resources : List RUri) (acc : List (Repo × List RUri)) (q : Repo),
      lookupGroup (resources.foldl (addToGroups getRepo) acc) q =
        lookupGroup acc q ++
          resources.filter (fun p => getRepo p == some q) := by
  intro resources
  induction resources with
  | nil => intro acc q; simp
  | cons x xs ih =>
    intro acc q
    rw [List.foldl_cons, ih, lookupGroup_addToGroups, List.append_assoc]
    congr 1
    rw [List.filter_cons]
    by_cases h : (getRepo x == some q) = true
    · simp [h]
    · simp [h]

/-- The group of a repository collects exactly the input resources that
resolve to it, in input order. -/
theorem lookupGroup_groupBy (getRepo : RUri → Option Repo)
    (resources : List RUri) (q : Repo) :
    lookupGroup (groupByRepository getRepo resources) q =
      resources.filter (fun p => getRepo p == some q) := by
  have := lookupGroup_foldl getRepo resources [] q
  simpa [groupByRepository, lookupGroup] using this

/-- `updateFirst` never changes the repository keys of the groups. -/
theorem map_fst_updateFirst (r : Repo) (x : RUri) :
    ∀ (l : List (Repo × List RUri)),
      (updateFirst r x l).map Prod.fst = l.map Prod.fst := by
  intro l
  induction l with
  | nil => rfl
  | cons g gs ih =>
    by_cases h : (g.1 == r) = true
    · simp [updateFirst, h]
    · simp only [updateFirst]
      rw [if_neg (by simpa using h)]
      simp [ih]

/-- Membership of a key among the group keys agrees with the existence
test the `reduce` step performs on the groups. -/
theorem contains_map_fst (r : Repo) :
    ∀ (l : List (Repo × List RUri)),
      (l.map Prod.fst).contains r = l.any (fun p => p.1 == r) := by
  intro l
  induction l with
  | nil => rfl
  | cons g gs ih =>
    rw [List.map_cons, List.contains_cons, List.any_cons, ih]
    by_cases h : g.1 = r
    · subst h; simp
    · have h1 : (r == g.1) = false := by simpa using Ne.symm h
      have h2 : (g.1 == r) = false := by simpa using h
      rw [h1, h2]

/-- The fold of the grouping phase produces as group keys exactly the
order-preserving deduplication of the resolved repositories. -/
theorem map_fst_foldl (getRepo : RUri → Option Repo) :
    ∀ (resources : List RUri) (acc : List (Repo × List RUri)),
      ((resources.foldl (addToGroups getRepo) acc).map Prod.fst) =
        (resources.filterMap getRepo).foldl
          (fun ks r => if ks.contains r then ks else ks ++ [r])
          (acc.map Prod.fst) := by
  intro resources
  induction resources with
  | nil => intro acc; rfl
  | cons x xs ih =>
    intro acc
    rw [List.foldl_cons, ih, List.filterMap_cons]
    cases hx : getRepo x with
    | none => simp [addToGroups, hx]
    | some r =>
      simp only [List.foldl_cons]
      congr 1
      simp only [addToGroups, hx]
      rw [contains_map_fst]
      by_cases hany : acc.any (fun p => p.1 == r) = true
      · rw [if_pos hany, if_pos hany, map_fst_updateFirst]
      · rw [if_neg hany, if_neg hany, List.map_append]
        rfl

/-- The deduplicating fold keeps its accumulator duplicate-free. -/
theorem firstSeen_foldl_nodup :
    ∀ (l : List Repo) (acc : List Repo), acc.Nodup →
      (l.foldl (fun ks r => if ks.contains r then ks else ks ++ [r]) acc).Nodup := by
  intro l
  induction l with
  | nil => intro acc h; simpa using h
  | cons r rs ih =>
    intro acc h
    rw [List.foldl_cons]
    by_cases hc : acc.contains r = true
    · rw [if_pos hc]
      exact ih acc h
    · rw [if_neg hc]
      refine ih _ (List.nodup_append.mpr ⟨h, List.nodup_singleton r, ?_⟩)
      intro a ha hb
      rw [List.mem_singleton] at hb
      subst hb
      exact hc (List.elem_iff.mpr ha)

/-- Membership in the deduplicating fold: exactly the accumulator's
members and the folded elements. -/
theorem mem_firstSeen_foldl :
    ∀ (l : List Repo) (acc : List Repo) (r : Repo),
      r ∈ l.foldl (fun ks x => if ks.contains x then ks else ks ++ [x]) acc ↔
        r ∈ acc ∨ r ∈ l := by
  intro l
  induction l with
  | nil => intro acc r; simp
  | cons x xs ih =>
    intro acc r
    rw [List.foldl_cons]
    by_cases hc : acc.contains x = true
    · rw [if_pos hc, ih]
      have hx : x ∈ acc := List.elem_iff.mp hc
      constructor
      · rintro (h | h)
        · exact Or.inl h
        · exact Or.inr (List.mem_cons_of_mem _ h)
      · rintro (h | h)
        · exact Or.inl h
        · rcases List.mem_cons.mp h with h | h
          · subst h; exact Or.inl hx
          · exact Or.inr h
    · rw [if_neg hc, ih]
      simp only [List.mem_append, List.mem_singleton, List.mem_cons]
      tauto

/-- Among groups with duplicate-free keys, every entry's resource list is
its key's lookup. -/
theorem snd_eq_lookupGroup :
    ∀ (l : List (Repo × List RUri)), (l.map Prod.fst).Nodup →
      ∀ (q : Repo) (xs : List RUri), (q, xs) ∈ l → xs = lookupGroup l q := by
  intro l
  induction l with
  | nil => intro _ q xs h; simp at h
  | cons g gs ih =>
    intro hnd q xs hmem
    obtain ⟨a, b⟩ := g
    rw [List.map_cons, List.nodup_cons] at hnd
    obtain ⟨hg, hnd'⟩ := hnd
    rcases List.mem_cons.mp hmem with h | h
    · have h1 : a = q := (Prod.ext_iff.mp h.symm).1
      have h2 : b = xs := (Prod.ext_iff.mp h.symm).2
      subst h1
      subst h2
      rw [lookupGroup_cons, if_pos (by simp)]
    · have hq : q ∈ gs.map Prod.fst := List.mem_map.mpr ⟨(q, xs), h, rfl⟩
      have hne : ¬(a == q) = true := by
        simp only [beq_iff_eq]
        intro e
        apply hg
        show a ∈ gs.map Prod.fst
        rw [e]
        exact hq
      rw [lookupGroup_cons, if_neg hne]
      exact ih hnd' q xs h

/-- Counterexample to claim C7 as stated: the claim quantifies over every
input path collection, but on an input containing the same path twice —
reachable, e.g. when `commit` pushes a rename-source URI that duplicates
a selected deleted resource's path — both occurrences are pushed into the
one group of their repository, so the path appears twice there and the
claimed "no path appears twice" fails. -/
theorem grouping_duplicate_counterexample :
    groupByRepository (fun _ => some 0) [7, 7] = [(0, [7, 7])] ∧
    (lookupGroup (groupByRepository (fun _ => some 0) [7, 7]) 0).count 7 = 2 :=
  ⟨rfl, rfl⟩

/-- Claim C7 as amended: on a duplicate-free input path collection,
grouping by repository is a partition — every path resolving to a
repository lies in exactly one group and only once within it,
unresolvable paths lie in no group (dropped, never failing the batch),
and the group keys are the resolved repositories in first-seen order.
(An input listing a path twice puts both occurrences in that one group,
as the counterexample shows.) -/
theorem runByRepository_grouping (getRepo : RUri → Option Repo)
    (resources : List RUri) (hnd : resources.Nodup) :
    (∀ (p : RUri) (r : Repo), p ∈ resources → getRepo p = some r →
       (∃! gr : Repo × List RUri,
          gr ∈ groupByRepository getRepo resources ∧ p ∈ gr.2) ∧
       (∀ gr ∈ groupByRepository getRepo resources, p ∈ gr.2 →
          gr.2.count p = 1)) ∧
    (∀ p : RUri, getRepo p = none →
       ∀ gr ∈ groupByRepository getRepo resources, p ∉ gr.2) ∧
    (groupByRepository getRepo resources).map Prod.fst =
      firstSeenRepos (resources.filterMap getRepo) := by
  have hkeys : (groupByRepository getRepo resources).map Prod.fst =
      firstSeenRepos (resources.filterMap getRepo) := by
    have := map_fst_foldl getRepo resources []
    simpa [groupByRepository, firstSeenRepos] using this
  have hkeysnd : ((groupByRepository getRepo resources).map Prod.fst).Nodup := by
    rw [hkeys]
    exact firstSeen_foldl_nodup _ [] List.nodup_nil
  have hsnd : ∀ gr ∈ groupByRepository getRepo resources,
      gr.2 = resources.filter (fun p => getRepo p == some gr.1) := by
    intro gr hgr
    have := snd_eq_lookupGroup _ hkeysnd gr.1 gr.2 (by simpa using hgr)
    rw [this, lookupGroup_groupBy]
  refine ⟨?_, ?_, hkeys⟩
  · intro p r hp hr
    have hrk : r ∈ (groupByRepository getRepo resources).map Prod.fst := by
      rw [hkeys]
      have hmem : r ∈ resources.filterMap getRepo :=
        List.mem_filterMap.mpr ⟨p, hp, hr⟩
      exact (mem_firstSeen_foldl _ [] r).mpr (Or.inr hmem)
    obtain ⟨gr0, hgr0, hfst0⟩ := List.mem_map.mp hrk
    have hp0 : p ∈ gr0.2 := by
      rw [hsnd gr0 hgr0, List.mem_filter]
      exact ⟨hp, by simp [hfst0, hr]⟩
    constructor
    · have key : ∀ gr', gr' ∈ groupByRepository getRepo resources →
          p ∈ gr'.2 →
          gr' = (r, resources.filter (fun s => getRepo s == some r)) := by
        intro gr' hg' hp'
        have hs := hsnd gr' hg'
        have hf : gr'.1 = r := by
          rw [hs, List.mem_filter] at hp'
          have h2 := hp'.2
          rw [beq_iff_eq, hr] at h2
          exact (Option.some.inj h2).symm
        calc gr' = (gr'.1, gr'.2) := rfl
          _ = (r, resources.filter (fun s => getRepo s == some r)) := by
              rw [hs, hf]
      refine ⟨gr0, ⟨hgr0, hp0⟩, ?_⟩
      rintro gr1 ⟨hgr1, hp1⟩
      rw [key gr1 hgr1 hp1, key gr0 hgr0 hp0]
    · intro gr hgr hpgr
      rw [hsnd gr hgr] at hpgr ⊢
      have hcf : (getRepo p == some gr.1) = true := by
        simpa using (List.mem_filter.mp hpgr).2
      rw [@List.count_filter RUri _ _ (fun s => getRepo s == some gr.1)
        p resources hcf]
      exact List.count_eq_one_of_mem hnd hp
  · intro p hpnone gr hgr hpmem
    rw [hsnd gr hgr, List.mem_filter] at hpmem
    have h2 := hpmem.2
    simp [hpnone] at h2

/-- Witness for C7 at a concrete batch: paths 0 and 2 resolve to
repository 0, path 1 to repository 1, path 5 to no repository; the group
containing path 2 is unique. -/
theorem runByRepository_grouping_witness :
    ∃! gr : Repo × List RUri,
      gr ∈ groupByRepository
        (fun p => if p == 5 then none else some (p % 2)) [0, 1, 2, 5] ∧
      (2 : RUri) ∈ gr.2 :=
  ((runByRepository_grouping
      (fun p => if p == 5 then none else some (p % 2)) [0, 1, 2, 5]
      (by decide)).1 2 0 (by decide) (by decide)).1

end SvnScm
